import Mathlib

/-!
Verification development for the python-file-trace static import tracer.

The embedding models the module resolver (`src/resolver.ts`) and the trace
orchestrator (`src/trace.ts`) as pure Lean functions over an explicit
filesystem value.  Paths are lists of components (already absolute and
normalized, so the source's `resolve`/`join`/`dirname` become identity,
append and `dropLast`).  The asynchronous fan-out of the source is
sequentialized in program order after the entry-seeding phase; the seeding
phase mirrors the synchronous prefix of each entry task (pending insertion,
`input` registration and ignore check all happen before any file is read).
The glob matcher is an external collaborator and is modelled as a list of
boolean predicates applied, as in the source, to both the base-relative and
the absolute path.
-/

namespace PyTrace

/-- An absolute, normalized filesystem path, as its list of components. -/
abbrev FilePath := List String

/-- `import x` record (`ImportInfo` in `src/types.ts`). -/
structure ImportInfo where
  module : String
  line : Nat
deriving DecidableEq

/-- `from x import y` record (`FromImportInfo` in `src/types.ts`); `names`
keeps the imported names (aliases are irrelevant to tracing). -/
structure FromImportInfo where
  module : String
  names : List String
  level : Nat
  line : Nat
deriving DecidableEq

/-- Dynamic import record (`DynamicImportInfo` in `src/types.ts`). -/
structure DynamicImportInfo where
  module : Option String
  expression : Option String
  line : Nat
deriving DecidableEq

/-- Parse result for one file (`ParsedImports` in `src/types.ts`). -/
structure ParsedImports where
  imports : List ImportInfo
  fromImports : List FromImportInfo
  dynamicImports : List DynamicImportInfo
deriving DecidableEq

/-- The reason kinds of `src/types.ts` (`ReasonType`): `input`, `import`,
`from`, `dynamic`, `asset`, `package`, `relative`, `namespace` — rendered
here as `input`, `importKind`, `fromKind`, `dynamicKind`, `assetKind`,
`packageKind`, `relativeKind`, `namespaceKind`. -/
inductive ReasonType where
  | input
  | importKind
  | fromKind
  | dynamicKind
  | assetKind
  | packageKind
  | relativeKind
  | namespaceKind
deriving DecidableEq

/-- `FileReason` of `src/types.ts`; `parents` is the insertion-ordered set
of parent paths. -/
structure FileReason where
  type : ReasonType
  parents : List FilePath
  moduleName : Option String
  ignored : Bool
deriving DecidableEq

/-- The filesystem as seen through `statPath`/`readdir`/`readFile`:
the set of regular files, the set of directories, and for each readable
and parseable source file its parsed import lists. -/
structure FS where
  files : List FilePath
  dirs : List FilePath
  sources : List (FilePath × ParsedImports)

/-- Result of a successful resolution (`ResolveResult` in
`src/resolver.ts`). -/
structure ResolveResult where
  path : FilePath
  isPackage : Bool
  isNamespacePackage : Bool
deriving DecidableEq

/-- The option record threaded through resolver and orchestrator: the
fields of `ResolverOptions` (`src/resolver.ts`) together with the trace
options that the orchestrator consults (`ignore`, `maxDepth`,
`analyzeDynamic`).  `followSymlinks`/`stat` only influence the unused
`isSymlink` stat field and are omitted. -/
structure TraceOptions where
  base : FilePath
  modulePaths : List FilePath
  sitePackages : List FilePath
  stdlibPath : Option FilePath
  includeStdlib : Bool
  stdlibModules : List String
  ignore : List (FilePath → Bool)
  maxDepth : Nat
  analyzeDynamic : Bool

/-- `statPath(p).isFile` — membership in the file set. -/
def isFile (fs : FS) (p : FilePath) : Bool :=
  fs.files.contains p

/-- `statPath(p).isDirectory` — membership in the directory set. -/
def isDir (fs : FS) (p : FilePath) : Bool :=
  fs.dirs.contains p

/-- `endsWith`, computed on the character lists so that it evaluates on
concrete inputs. -/
def strEndsWith (s suffix : String) : Bool :=
  suffix.toList.isSuffixOf s.toList

/-- Accumulator pass of `splitDots`. -/
def splitDotsAux : List Char → List Char → List String
  | [], acc => [String.mk acc.reverse]
  | x :: xs, acc =>
    if x = '.' then String.mk acc.reverse :: splitDotsAux xs []
    else splitDotsAux xs (x :: acc)

/-- JavaScript `moduleName.split('.')`: split at every dot; the empty
string yields `[""]`. -/
def splitDots (s : String) : List String :=
  splitDotsAux s.toList []

/-- Does the final component of `p` end in `.py`? -/
def lastIsPy (p : FilePath) : Bool :=
  match p.getLast? with
  | some s => strEndsWith s ".py"
  | none => false

/-- The `readdir` scan inside `isNamespacePackage`: does `d` contain at
least one `.py` file or one subdirectory? -/
def hasMember (fs : FS) (d : FilePath) : Bool :=
  fs.files.any (fun q => q.dropLast == d && lastIsPy q) ||
    fs.dirs.any (fun q => q.dropLast == d)

/-- `isNamespacePackage` of `src/resolver.ts`: a directory without an
`__init__.py` that contains at least one Python file or subdirectory. -/
def isNamespacePackage (fs : FS) (d : FilePath) : Bool :=
  isDir fs d && !isFile fs (d ++ ["__init__.py"]) && hasMember fs d

/-- `isStdlibModule` of `src/resolver.ts`: the top-level dotted component
is in the probed stdlib set. -/
def isStdlibModule (o : TraceOptions) (moduleName : String) : Bool :=
  o.stdlibModules.contains ((splitDots moduleName).headD "")

/-- The `searchPaths` array built in `createResolver`: base, extra module
paths, site-packages, and the stdlib root when stdlib inclusion is on. -/
def searchPaths (o : TraceOptions) : List FilePath :=
  o.base :: o.modulePaths ++ o.sitePackages ++
    (match o.stdlibPath with
     | some sp => if o.includeStdlib then [sp] else []
     | none => [])

/-- `resolveInPath` of `src/resolver.ts`: walk the dotted components from
a candidate root.  A non-final component must be a child directory; the
final component prefers the `.py` file, then the regular package
initializer, then the namespace-package directory. -/
def resolveInPath (fs : FS) : List String → FilePath → Option ResolveResult
  | [], _ => none
  | part :: rest, currentPath =>
    let modulePath := currentPath ++ [part ++ ".py"]
    if isFile fs modulePath && rest.isEmpty then
      some ⟨modulePath, false, false⟩
    else
      let packagePath := currentPath ++ [part]
      if isDir fs packagePath then
        if rest.isEmpty then
          let initPath := packagePath ++ ["__init__.py"]
          if isFile fs initPath then
            some ⟨initPath, true, false⟩
          else if isNamespacePackage fs packagePath then
            some ⟨packagePath, true, true⟩
          else
            none
        else
          resolveInPath fs rest packagePath
      else
        none

/-- The root loop of `resolveModule`: try each search path in order and
stop at the first success. -/
def resolveInPaths (fs : FS) (parts : List String) : List FilePath → Option ResolveResult
  | [] => none
  | r :: rest =>
    match resolveInPath fs parts r with
    | some v => some v
    | none => resolveInPaths fs parts rest

/-- `resolveModule` of `src/resolver.ts`: stdlib short-circuit, then the
per-root walk over the importing file's directory followed by the
configured search paths. -/
def resolveModule (fs : FS) (o : TraceOptions) (moduleName : String)
    (fromFile : Option FilePath) : Option ResolveResult :=
  if !o.includeStdlib && isStdlibModule o moduleName then
    none
  else
    let parts := splitDots moduleName
    let paths :=
      match fromFile with
      | some f => f.dropLast :: searchPaths o
      | none => searchPaths o
    resolveInPaths fs parts paths

/-- Iterated `dirname`, for climbing `level - 1` directories. -/
def climbUp : Nat → FilePath → FilePath
  | 0, p => p
  | n + 1, p => climbUp n p.dropLast

/-- `resolveRelativeImport` of `src/resolver.ts`.  The option record is in
scope in the source closure but unused by this function. -/
def resolveRelativeImport (fs : FS) (_o : TraceOptions) (moduleName : String)
    (level : Nat) (fromFile : FilePath) : Option ResolveResult :=
  let basePath := climbUp (level - 1) fromFile.dropLast
  if moduleName = "" then
    let initPath := basePath ++ ["__init__.py"]
    if isFile fs initPath then
      some ⟨initPath, true, false⟩
    else
      none
  else
    resolveInPath fs (splitDots moduleName) basePath

/-- `resolveImportedName` of `src/resolver.ts`: probe an imported name as
a submodule of the package whose initializer is `modulePath`. -/
def resolveImportedName (fs : FS) (modulePath : FilePath) (name : String)
    (isPackageImport : Bool) : Option ResolveResult :=
  if !isPackageImport then
    none
  else
    let packageDir := modulePath.dropLast
    let submodulePath := packageDir ++ [name ++ ".py"]
    if isFile fs submodulePath then
      some ⟨submodulePath, false, false⟩
    else
      let subpackagePath := packageDir ++ [name]
      if isDir fs subpackagePath then
        let initPath := subpackagePath ++ ["__init__.py"]
        if isFile fs initPath then
          some ⟨initPath, true, false⟩
        else if isNamespacePackage fs subpackagePath then
          some ⟨subpackagePath, true, true⟩
        else
          none
      else
        none

/-- Render a path the way warning messages do. -/
def pathToString (p : FilePath) : String :=
  String.intercalate "/" p

/-- `path.relative(base, p)` of the ignore check: strip the common prefix
then climb with `..` components. -/
def relativePath : FilePath → FilePath → FilePath
  | [], p => p
  | b :: bs, q :: qs =>
    if b = q then relativePath bs qs
    else List.replicate (b :: bs).length ".." ++ (q :: qs)
  | base, [] => List.replicate base.length ".."

/-- `shouldIgnore` of `src/trace.ts`: some pattern matches the
base-relative or the absolute path. -/
def shouldIgnore (o : TraceOptions) (p : FilePath) : Bool :=
  o.ignore.any (fun g => g (relativePath o.base p) || g p)

/-- The mutable trace context of `src/trace.ts` (`fileList`, `reasons`,
`warnings`, `unresolved`, `pending`, `traced`) together with the
`resolvedModules` map of the `TraceCache`. -/
structure TraceState where
  fileList : List FilePath
  reasons : List (FilePath × FileReason)
  warnings : List String
  unresolved : List (String × List FilePath)
  pending : List FilePath
  traced : List FilePath
  resolvedModules : List (String × Option FilePath)
deriving DecidableEq

/-- Append a warning. -/
def pushWarn (st : TraceState) (msg : String) : TraceState :=
  { st with warnings := st.warnings ++ [msg] }

/-- Insertion-ordered set insert used for `reason.parents.add`. -/
def addParent (ps : List FilePath) : Option FilePath → List FilePath
  | none => ps
  | some p => if p ∈ ps then ps else ps ++ [p]

/-- The repeat-discovery update of `addFile`: keep the reason, accumulate
the parent. -/
def bumpParents (parent : Option FilePath) (r : FileReason) : FileReason :=
  ⟨r.type, addParent r.parents parent, r.moduleName, r.ignored⟩

/-- `addFile` of `src/trace.ts`: first discovery creates the reason (with
the ignore flag evaluated there); a repeat discovery only accumulates the
parent. -/
def addFile (o : TraceOptions) (path : FilePath) (ty : ReasonType)
    (parent : Option FilePath) (moduleName : Option String)
    (st : TraceState) : TraceState :=
  if path ∈ st.fileList then
    { st with reasons := st.reasons.map (fun e =>
        if e.1 = path then (e.1, bumpParents parent e.2) else e) }
  else
    { st with
      fileList := st.fileList ++ [path],
      reasons := st.reasons ++
        [(path, ⟨ty, addParent [] parent, moduleName, shouldIgnore o path⟩)] }

/-- `addUnresolved` of `src/trace.ts`. -/
def addUnresolved (moduleName : String) (fromFile : FilePath)
    (st : TraceState) : TraceState :=
  { st with unresolved :=
      if (st.unresolved.lookup moduleName).isSome then
        st.unresolved.map (fun e =>
          if e.1 = moduleName then (e.1, e.2 ++ [fromFile]) else e)
      else
        st.unresolved ++ [(moduleName, [fromFile])] }

/-- The shared tail of every successful resolution inside `traceFile`:
record the inclusion via `addFile` with the import variant's reason kind,
then descend into the file unless it is a namespace package. -/
def recordAndTrace (o : TraceOptions)
    (rec : FilePath → TraceState → TraceState) (parent : FilePath)
    (ty : ReasonType) (mn : String) (r : ResolveResult)
    (st : TraceState) : TraceState :=
  if r.isNamespacePackage then
    addFile o r.path ty (some parent) (some mn) st
  else
    rec r.path (addFile o r.path ty (some parent) (some mn) st)

/-- One iteration of the `imports.imports` loop of `traceFile`. -/
def handleImport (fs : FS) (o : TraceOptions)
    (rec : FilePath → TraceState → TraceState) (parent : FilePath)
    (imp : ImportInfo) (st : TraceState) : TraceState :=
  match resolveModule fs o imp.module (some parent) with
  | some r => recordAndTrace o rec parent .importKind imp.module r st
  | none =>
    if isStdlibModule o imp.module then st
    else addUnresolved imp.module parent st

/-- One iteration of the submodule-promotion loop over the names of a
from-import whose base resolved to `r`. -/
def handleName (fs : FS) (o : TraceOptions)
    (rec : FilePath → TraceState → TraceState) (parent : FilePath)
    (baseName : String) (r : ResolveResult) (st : TraceState)
    (name : String) : TraceState :=
  if name = "*" then st
  else
    match resolveImportedName fs r.path name r.isPackage with
    | some sub => recordAndTrace o rec parent .fromKind (baseName ++ "." ++ name) sub st
    | none => st

/-- One iteration of the `imports.fromImports` loop of `traceFile`:
relative imports go through `resolveRelativeImport`, absolute ones through
`resolveModule`; both then probe the names for submodules. -/
def handleFromImport (fs : FS) (o : TraceOptions)
    (rec : FilePath → TraceState → TraceState) (parent : FilePath)
    (imp : FromImportInfo) (st : TraceState) : TraceState :=
  if imp.level > 0 then
    match resolveRelativeImport fs o imp.module imp.level parent with
    | some r =>
      imp.names.foldl
        (handleName fs o rec parent (if imp.module = "" then "." else imp.module) r)
        (recordAndTrace o rec parent .relativeKind
          (if imp.module = "" then "." else imp.module) r st)
    | none =>
      addUnresolved (String.join (List.replicate imp.level ".") ++ imp.module)
        parent st
  else if imp.module ≠ "" then
    match resolveModule fs o imp.module (some parent) with
    | some r =>
      imp.names.foldl (handleName fs o rec parent imp.module r)
        (recordAndTrace o rec parent .fromKind imp.module r st)
    | none =>
      if isStdlibModule o imp.module then st
      else addUnresolved imp.module parent st
  else
    st

/-- One iteration of the `imports.dynamicImports` loop of `traceFile`. -/
def handleDynamic (fs : FS) (o : TraceOptions)
    (rec : FilePath → TraceState → TraceState) (parent : FilePath)
    (imp : DynamicImportInfo) (st : TraceState) : TraceState :=
  match imp.module with
  | some m =>
    match resolveModule fs o m (some parent) with
    | some r => recordAndTrace o rec parent .dynamicKind m r st
    | none =>
      if isStdlibModule o m then st
      else addUnresolved m parent st
  | none =>
    match imp.expression with
    | some e =>
      pushWarn st ("Dynamic import with non-static expression at " ++
        pathToString parent ++ ":" ++ toString imp.line ++ ": " ++ e)
    | none => st

/-- The read-parse-process-finish tail of `traceFile`: read failure warns
and clears pending; otherwise the three import loops run and the file is
moved from `pending` to `traced`. -/
def traceBody (fs : FS) (o : TraceOptions)
    (rec : FilePath → TraceState → TraceState) (path : FilePath)
    (st : TraceState) : TraceState :=
  match fs.sources.lookup path with
  | none =>
    let st := pushWarn st ("Failed to read " ++ pathToString path)
    { st with pending := st.pending.erase path }
  | some imps =>
    let st := imps.imports.foldl (fun s i => handleImport fs o rec path i s) st
    let st := imps.fromImports.foldl (fun s i => handleFromImport fs o rec path i s) st
    let st :=
      if o.analyzeDynamic then
        imps.dynamicImports.foldl (fun s i => handleDynamic fs o rec path i s) st
      else st
    { st with pending := st.pending.erase path, traced := st.traced ++ [path] }

/-- The two statements at the head of a `traceFile` descent: insert the
file into `pending`, and register it as an `input` when it is an entry. -/
def seedState (o : TraceOptions) (path : FilePath) :
    Bool → TraceState → TraceState
  | true, st => addFile o path .input none none { st with pending := path :: st.pending }
  | false, st => { st with pending := path :: st.pending }

/-- `traceFile` of `src/trace.ts`, with the remaining depth budget
`fuel = maxDepth + 1 - depth` as the recursion measure: `fuel = 0` is
exactly the `depth > maxDepth` warning branch, and children run at
`depth + 1`, i.e. at `fuel - 1`.  (`shouldIgnore` is pure, so evaluating
it before or after the `seedState` update is equivalent.) -/
def traceFileAux (fs : FS) (o : TraceOptions) :
    Nat → FilePath → Bool → TraceState → TraceState
  | 0, path, _, st => pushWarn st ("Max depth exceeded for " ++ pathToString path)
  | fuel + 1, path, isInput, st =>
    if path ∈ st.pending then st
    else if path ∈ st.traced then st
    else if shouldIgnore o path then
      { seedState o path isInput st with
          pending := (seedState o path isInput st).pending.erase path }
    else
      traceBody fs o (fun p s => traceFileAux fs o fuel p false s) path
        (seedState o path isInput st)

/-- The synchronous prefix of an entry's `traceFile` task (executed for
every entry before any file is read): pending insertion, `input`
registration, ignore check.  Returns the updated state and the entries
whose bodies still have to run. -/
def seedEntry (o : TraceOptions) (acc : TraceState × List FilePath)
    (f : FilePath) : TraceState × List FilePath :=
  if f ∈ acc.1.pending then acc
  else if f ∈ acc.1.traced then acc
  else if shouldIgnore o f then
    ({ seedState o f true acc.1 with
        pending := (seedState o f true acc.1).pending.erase f }, acc.2)
  else
    (seedState o f true acc.1, acc.2 ++ [f])

/-- Fresh trace state around a caller-supplied (or empty) resolved-module
cache, as `createCache` builds it. -/
def initialState (rm : List (String × Option FilePath)) : TraceState :=
  ⟨[], [], [], [], [], [], rm⟩

/-- `pythonFileTrace` of `src/trace.ts`: seed every entry (the entries'
synchronous prefixes all run before any import work), then run each
surviving entry's body at depth `0`, i.e. children at fuel `maxDepth`. -/
def pythonFileTrace (fs : FS) (o : TraceOptions) (files : List FilePath)
    (rm : List (String × Option FilePath)) : TraceState :=
  (files.foldl (seedEntry o) (initialState rm, [])).2.foldl
    (fun st f =>
      traceBody fs o (fun p s => traceFileAux fs o o.maxDepth p false s) f st)
    (files.foldl (seedEntry o) (initialState rm, [])).1

/-! ### Concrete fixtures -/

/-- Scenario 1 layout: `b/main.py` with `import utils` and
`from helpers import h`; `b/utils.py`, `b/helpers.py` (which itself
imports `hidden`), `b/hidden.py` as siblings. -/
def fsSimple : FS :=
  { files := [["b", "main.py"], ["b", "utils.py"], ["b", "helpers.py"], ["b", "hidden.py"]]
    dirs := [[], ["b"]]
    sources :=
      [ (["b", "main.py"],
          ⟨[⟨"utils", 1⟩], [⟨"helpers", ["h"], 0, 2⟩], []⟩)
      , (["b", "utils.py"], ⟨[], [], []⟩)
      , (["b", "helpers.py"], ⟨[⟨"hidden", 1⟩], [], []⟩)
      , (["b", "hidden.py"], ⟨[], [], []⟩) ] }

/-- Options for the Scenario 1 fixture, no ignore patterns. -/
def oSimple : TraceOptions :=
  { base := ["b"]
    modulePaths := []
    sitePackages := []
    stdlibPath := none
    includeStdlib := false
    stdlibModules := []
    ignore := []
    maxDepth := 10
    analyzeDynamic := true }

/-- Scenario 1 options with `ignore = ["**/helpers.py"]`, the glob
modelled as "final component is `helpers.py`". -/
def oIgnore : TraceOptions :=
  { oSimple with ignore := [fun p => p.getLast? == some "helpers.py"] }

/-- Namespace-package layout: `b/main2.py` with `import nspkg`;
`b/nspkg/` has no `__init__.py` but holds `child.py`. -/
def fsNs : FS :=
  { files := [["b", "main2.py"], ["b", "nspkg", "child.py"]]
    dirs := [[], ["b"], ["b", "nspkg"]]
    sources := [(["b", "main2.py"], ⟨[⟨"nspkg", 1⟩], [], []⟩)] }

/-- The namespace-package trace of `fsNs` from `main2.py`. -/
def resNs : TraceState :=
  pythonFileTrace fsNs oSimple [["b", "main2.py"]] []

/-- Layout for the empty relative module name: `r/pkg/` has no
`__init__.py` but holds `a.py` (containing `from . import m`) and
`m.py`. -/
def fsRel : FS :=
  { files := [["r", "pkg", "a.py"], ["r", "pkg", "m.py"]]
    dirs := [[], ["r"], ["r", "pkg"]]
    sources :=
      [ (["r", "pkg", "a.py"], ⟨[], [⟨"", ["m"], 1, 1⟩], []⟩)
      , (["r", "pkg", "m.py"], ⟨[], [], []⟩) ] }

/-- Cycle layout: `c/a.py` imports `b`, `c/b.py` imports `a`. -/
def fsCycle : FS :=
  { files := [["c", "a.py"], ["c", "b.py"]]
    dirs := [[], ["c"]]
    sources :=
      [ (["c", "a.py"], ⟨[⟨"b", 1⟩], [], []⟩)
      , (["c", "b.py"], ⟨[⟨"a", 1⟩], [], []⟩) ] }

/-- Options for the cycle fixture. -/
def oCycle : TraceOptions :=
  { oSimple with base := ["c"] }

/-- The cycle trace of `fsCycle` entered at `a.py`. -/
def resCycle : TraceState :=
  pythonFileTrace fsCycle oCycle [["c", "a.py"]] []

/-! ### Association-list lemmas -/

section LookupLemmas

variable {α β : Type _} [BEq α] [LawfulBEq α]

theorem lookup_append_some {l l' : List (α × β)} {p : α} {r : β}
    (h : l.lookup p = some r) : (l ++ l').lookup p = some r := by
  induction l with
  | nil => simp [List.lookup] at h
  | cons e t ih =>
    rw [List.cons_append]
    rw [List.lookup] at h ⊢
    cases hpe : p == e.1 with
    | true => simpa [hpe] using h
    | false =>
      rw [hpe] at h
      simpa [hpe] using ih h

theorem lookup_append_none {l l' : List (α × β)} {p : α}
    (h : l.lookup p = none) : (l ++ l').lookup p = l'.lookup p := by
  induction l with
  | nil => simp
  | cons e t ih =>
    rw [List.cons_append]
    rw [List.lookup] at h ⊢
    cases hpe : p == e.1 with
    | true => rw [hpe] at h; simp at h
    | false =>
      rw [hpe] at h
      simpa [hpe] using ih h

theorem lookup_mem {l : List (α × β)} {p : α} {r : β}
    (h : l.lookup p = some r) : (p, r) ∈ l := by
  induction l with
  | nil => simp [List.lookup] at h
  | cons e t ih =>
    rw [List.lookup] at h
    cases hpe : p == e.1 with
    | true =>
      rw [hpe] at h
      simp only [Option.some.injEq] at h
      have hp : p = e.1 := by simpa using hpe
      subst hp
      subst h
      exact List.mem_cons_self _ _
    | false =>
      rw [hpe] at h
      exact List.mem_cons_of_mem _ (ih h)

theorem lookup_none_of_not_mem_keys {l : List (α × β)} {p : α}
    (h : p ∉ l.map Prod.fst) : l.lookup p = none := by
  induction l with
  | nil => rfl
  | cons e t ih =>
    simp only [List.map_cons, List.mem_cons, not_or] at h
    rw [List.lookup]
    have : (p == e.1) = false := by
      simpa using h.1
    rw [this]
    exact ih h.2

end LookupLemmas

theorem lookup_map_update {β : Type _} (l : List (FilePath × β)) (q p : FilePath)
    (g : β → β) :
    ((l.map fun e => if e.1 = q then (e.1, g e.2) else e).lookup p) =
      (l.lookup p).map (fun r => if p = q then g r else r) := by
  induction l with
  | nil => rfl
  | cons e t ih =>
    obtain ⟨k, v⟩ := e
    have hhead : (if k = q then (k, g v) else (k, v)) = (k, if k = q then g v else v) := by
      by_cases hkq : k = q <;> simp [hkq]
    simp only [List.map_cons]
    rw [hhead, List.lookup_cons, List.lookup_cons]
    by_cases hpk : p = k
    · have hb : (p == k) = true := by simpa using hpk
      rw [hb]
      simp [hpk]
    · have hb : (p == k) = false := by simpa using hpk
      rw [hb]
      simpa using ih

/-! ### State evolution: the file set and the recorded reason kinds only
grow, and the resolver cache component is never touched. -/

/-- `st'` evolves from `st`: the file set grows, recorded reasons keep
their kind, and the resolved-module cache is untouched. -/
def Pres (st st' : TraceState) : Prop :=
  (∀ q, q ∈ st.fileList → q ∈ st'.fileList) ∧
  (∀ p r, st.reasons.lookup p = some r →
    ∃ r', st'.reasons.lookup p = some r' ∧ r'.type = r.type) ∧
  st'.resolvedModules = st.resolvedModules

theorem pres_refl (st : TraceState) : Pres st st :=
  ⟨fun _ h => h, fun _ r h => ⟨r, h, rfl⟩, rfl⟩

theorem pres_trans {s1 s2 s3 : TraceState} (h1 : Pres s1 s2) (h2 : Pres s2 s3) :
    Pres s1 s3 := by
  refine ⟨fun q hq => h2.1 q (h1.1 q hq), fun p r hr => ?_, h2.2.2.trans h1.2.2⟩
  obtain ⟨r', hr', hty⟩ := h1.2.1 p r hr
  obtain ⟨r'', hr'', hty'⟩ := h2.2.1 p r' hr'
  exact ⟨r'', hr'', hty'.trans hty⟩

theorem pres_of_eq {st st' : TraceState} (h1 : st'.fileList = st.fileList)
    (h2 : st'.reasons = st.reasons) (h3 : st'.resolvedModules = st.resolvedModules) :
    Pres st st' := by
  refine ⟨fun q hq => ?_, fun p r hr => ?_, h3⟩
  · rw [h1]; exact hq
  · exact ⟨r, by rw [h2]; exact hr, rfl⟩

theorem pres_addFile (o : TraceOptions) (path : FilePath) (ty : ReasonType)
    (parent : Option FilePath) (mn : Option String) (st : TraceState) :
    Pres st (addFile o path ty parent mn st) := by
  unfold addFile
  split
  · refine ⟨fun q hq => hq, fun p r hr => ?_, rfl⟩
    refine ⟨if p = path then bumpParents parent r else r, ?_, by split <;> rfl⟩
    show (st.reasons.map fun e =>
      if e.1 = path then (e.1, bumpParents parent e.2) else e).lookup p = _
    rw [lookup_map_update, hr]
    rfl
  · refine ⟨fun q hq => by simp [hq], fun p r hr => ?_, rfl⟩
    exact ⟨r, lookup_append_some hr, rfl⟩

theorem pres_addUnresolved (m : String) (f : FilePath) (st : TraceState) :
    Pres st (addUnresolved m f st) :=
  pres_of_eq rfl rfl rfl

theorem pres_pushWarn (st : TraceState) (msg : String) :
    Pres st (pushWarn st msg) :=
  pres_of_eq rfl rfl rfl

theorem pres_foldl {σ : Type _} (f : TraceState → σ → TraceState)
    (h : ∀ s a, Pres s (f s a)) :
    ∀ (l : List σ) (s : TraceState), Pres s (l.foldl f s) := by
  intro l
  induction l with
  | nil => intro s; exact pres_refl s
  | cons a t ih => intro s; exact pres_trans (h s a) (ih (f s a))

theorem pres_record_update {st : TraceState} (pnd : List FilePath)
    (trc : List FilePath) :
    Pres st { st with pending := pnd, traced := trc } :=
  pres_of_eq rfl rfl rfl

theorem pres_recordAndTrace (o : TraceOptions)
    (rec : FilePath → TraceState → TraceState)
    (hrec : ∀ p s, Pres s (rec p s)) (parent : FilePath) (ty : ReasonType)
    (mn : String) (r : ResolveResult) (st : TraceState) :
    Pres st (recordAndTrace o rec parent ty mn r st) := by
  unfold recordAndTrace
  split
  · exact pres_addFile _ _ _ _ _ _
  · exact pres_trans (pres_addFile _ _ _ _ _ _) (hrec _ _)

theorem pres_handleName (fs : FS) (o : TraceOptions)
    (rec : FilePath → TraceState → TraceState)
    (hrec : ∀ p s, Pres s (rec p s)) (parent : FilePath) (baseName : String)
    (r : ResolveResult) (st : TraceState) (name : String) :
    Pres st (handleName fs o rec parent baseName r st name) := by
  unfold handleName
  split
  · exact pres_refl _
  · split
    · exact pres_recordAndTrace o rec hrec parent _ _ _ st
    · exact pres_refl _

theorem pres_handleImport (fs : FS) (o : TraceOptions)
    (rec : FilePath → TraceState → TraceState)
    (hrec : ∀ p s, Pres s (rec p s)) (parent : FilePath) (imp : ImportInfo)
    (st : TraceState) :
    Pres st (handleImport fs o rec parent imp st) := by
  unfold handleImport
  split
  · exact pres_recordAndTrace o rec hrec parent _ _ _ st
  · split
    · exact pres_refl _
    · exact pres_addUnresolved _ _ _

theorem pres_handleFromImport (fs : FS) (o : TraceOptions)
    (rec : FilePath → TraceState → TraceState)
    (hrec : ∀ p s, Pres s (rec p s)) (parent : FilePath)
    (imp : FromImportInfo) (st : TraceState) :
    Pres st (handleFromImport fs o rec parent imp st) := by
  unfold handleFromImport
  split
  · split
    · exact pres_trans (pres_recordAndTrace o rec hrec parent _ _ _ st)
        (pres_foldl _ (fun s a => pres_handleName fs o rec hrec _ _ _ s a) _ _)
    · exact pres_addUnresolved _ _ _
  · split
    · split
      · exact pres_trans (pres_recordAndTrace o rec hrec parent _ _ _ st)
          (pres_foldl _ (fun s a => pres_handleName fs o rec hrec _ _ _ s a) _ _)
      · split
        · exact pres_refl _
        · exact pres_addUnresolved _ _ _
    · exact pres_refl _

theorem pres_handleDynamic (fs : FS) (o : TraceOptions)
    (rec : FilePath → TraceState → TraceState)
    (hrec : ∀ p s, Pres s (rec p s)) (parent : FilePath)
    (imp : DynamicImportInfo) (st : TraceState) :
    Pres st (handleDynamic fs o rec parent imp st) := by
  unfold handleDynamic
  split
  · split
    · exact pres_recordAndTrace o rec hrec parent _ _ _ st
    · split
      · exact pres_refl _
      · exact pres_addUnresolved _ _ _
  · split
    · exact pres_pushWarn _ _
    · exact pres_refl _

theorem pres_traceBody (fs : FS) (o : TraceOptions)
    (rec : FilePath → TraceState → TraceState)
    (hrec : ∀ p s, Pres s (rec p s)) (path : FilePath) (st : TraceState) :
    Pres st (traceBody fs o rec path st) := by
  unfold traceBody
  split
  · exact pres_trans (pres_pushWarn _ _) (pres_record_update _ _)
  · rename_i imps heq
    have h1 : Pres st _ := pres_foldl (fun s i => handleImport fs o rec path i s)
      (fun s i => pres_handleImport fs o rec hrec path i s) imps.imports st
    have h2 : Pres st _ := pres_trans h1
      (pres_foldl (fun s i => handleFromImport fs o rec path i s)
        (fun s i => pres_handleFromImport fs o rec hrec path i s) imps.fromImports _)
    have hdyn : ∀ s : TraceState,
        Pres s (if o.analyzeDynamic then
          imps.dynamicImports.foldl (fun s i => handleDynamic fs o rec path i s) s
        else s) := by
      intro s
      split
      · exact pres_foldl _ (fun s i => pres_handleDynamic fs o rec hrec path i s) _ _
      · exact pres_refl _
    exact pres_trans (pres_trans h2 (hdyn _)) (pres_record_update _ _)

theorem pres_seedState (o : TraceOptions) (path : FilePath) (b : Bool)
    (st : TraceState) : Pres st (seedState o path b st) := by
  cases b
  · exact pres_of_eq rfl rfl rfl
  · exact pres_trans (pres_of_eq rfl rfl rfl)
      (pres_addFile o path ReasonType.input none none
        { st with pending := path :: st.pending })

theorem pres_traceFileAux (fs : FS) (o : TraceOptions) :
    ∀ (fuel : Nat) (p : FilePath) (b : Bool) (st : TraceState),
      Pres st (traceFileAux fs o fuel p b st) := by
  intro fuel
  induction fuel with
  | zero => intro p b st; exact pres_pushWarn _ _
  | succ n ih =>
    intro p b st
    unfold traceFileAux
    split
    · exact pres_refl _
    · split
      · exact pres_refl _
      · split
        · exact pres_trans (pres_seedState o p b st) (pres_record_update _ _)
        · exact pres_trans (pres_seedState o p b st)
            (pres_traceBody fs o _ (fun q s => ih q false s) p _)

theorem pres_seedEntry (o : TraceOptions) (acc : TraceState × List FilePath)
    (f : FilePath) : Pres acc.1 (seedEntry o acc f).1 := by
  unfold seedEntry
  split
  · exact pres_refl _
  · split
    · exact pres_refl _
    · split
      · exact pres_trans (pres_seedState o f true acc.1) (pres_record_update _ _)
      · exact pres_seedState o f true acc.1

theorem pres_seedFold (o : TraceOptions) :
    ∀ (files : List FilePath) (acc : TraceState × List FilePath),
      Pres acc.1 (files.foldl (seedEntry o) acc).1 := by
  intro files
  induction files with
  | nil => intro acc; exact pres_refl _
  | cons f t ih =>
    intro acc
    exact pres_trans (pres_seedEntry o acc f) (ih (seedEntry o acc f))

theorem pres_pythonFileTrace (fs : FS) (o : TraceOptions)
    (files : List FilePath) (rm : List (String × Option FilePath)) :
    Pres (initialState rm) (pythonFileTrace fs o files rm) := by
  unfold pythonFileTrace
  refine pres_trans (pres_seedFold o files (initialState rm, [])) ?_
  exact pres_foldl _
    (fun s f => pres_traceBody fs o _
      (fun q s' => pres_traceFileAux fs o o.maxDepth q false s') f s) _ _

/-! ### The parent-closure invariant -/

/-- A well-formed recorded reason: its parents are in the file set, and a
non-entry reason has at least one parent. -/
def GoodReason (st : TraceState) (r : FileReason) : Prop :=
  (∀ q ∈ r.parents, q ∈ st.fileList) ∧
    (r.type ≠ ReasonType.input → r.parents ≠ [])

/-- Every recorded reason is well formed. -/
def Good (st : TraceState) : Prop :=
  ∀ e ∈ st.reasons, GoodReason st e.2

theorem good_of_eq {st st' : TraceState} (h1 : st'.fileList = st.fileList)
    (h2 : st'.reasons = st.reasons) (hG : Good st) : Good st' := by
  intro e he
  rw [h2] at he
  obtain ⟨hp, hn⟩ := hG e he
  exact ⟨fun q hq => by rw [h1]; exact hp q hq, hn⟩

theorem mem_addParent {ps : List FilePath} {par : Option FilePath}
    {q : FilePath} (h : q ∈ addParent ps par) : q ∈ ps ∨ par = some q := by
  cases par with
  | none => exact Or.inl h
  | some p0 =>
    simp only [addParent] at h
    split at h
    · exact Or.inl h
    · rcases List.mem_append.mp h with h1 | h2
      · exact Or.inl h1
      · simp only [List.mem_singleton] at h2
        exact Or.inr (by rw [h2])

theorem addParent_ne_nil {ps : List FilePath} {par : Option FilePath}
    (h : ps ≠ []) : addParent ps par ≠ [] := by
  cases par with
  | none => exact h
  | some p0 =>
    simp only [addParent]
    split
    · exact h
    · simp

theorem mem_addFile_self (o : TraceOptions) (path : FilePath)
    (ty : ReasonType) (par : Option FilePath) (mn : Option String)
    (st : TraceState) : path ∈ (addFile o path ty par mn st).fileList := by
  unfold addFile
  split
  · rename_i h
    exact h
  · simp

theorem good_addFile (o : TraceOptions) (path : FilePath) (ty : ReasonType)
    (parent : Option FilePath) (mn : Option String) (st : TraceState)
    (hG : Good st) (hpar : ∀ q, parent = some q → q ∈ st.fileList)
    (hne : ty ≠ ReasonType.input → parent ≠ none) :
    Good (addFile o path ty parent mn st) := by
  unfold addFile
  split
  · rename_i hmem
    intro e he
    simp only [List.mem_map] at he
    obtain ⟨e0, he0, rfl⟩ := he
    obtain ⟨hp0, hn0⟩ := hG e0 he0
    by_cases hk : e0.1 = path
    · rw [if_pos hk]
      constructor
      · intro q hq
        rcases mem_addParent hq with h1 | h2
        · exact hp0 q h1
        · exact hpar q h2
      · intro hty
        exact addParent_ne_nil (hn0 hty)
    · rw [if_neg hk]
      exact ⟨hp0, hn0⟩
  · rename_i hmem
    intro e he
    rcases List.mem_append.mp he with h1 | h2
    · obtain ⟨hp0, hn0⟩ := hG e h1
      exact ⟨fun q hq => List.mem_append.mpr (Or.inl (hp0 q hq)), hn0⟩
    · simp only [List.mem_singleton] at h2
      subst h2
      constructor
      · intro q hq
        rcases mem_addParent hq with h1 | h2
        · simp at h1
        · exact List.mem_append.mpr (Or.inl (hpar q h2))
      · intro hty
        rcases hpe : parent with _ | p0
        · exact absurd hpe (hne hty)
        · subst hpe
          simp [addParent]

/-- The recursion hypotheses used by the invariant proofs: the recursive
descent evolves the state and keeps it well formed whenever the file it
descends into is already recorded. -/
def RecOk (rec : FilePath → TraceState → TraceState) : Prop :=
  (∀ p s, Pres s (rec p s)) ∧
  (∀ p s, Good s → p ∈ s.fileList → Good (rec p s))

theorem good_recordAndTrace (o : TraceOptions)
    (rec : FilePath → TraceState → TraceState) (hrec : RecOk rec)
    (parent : FilePath) (ty : ReasonType) (mn : String) (r : ResolveResult)
    (st : TraceState) (hG : Good st) (hpar : parent ∈ st.fileList) :
    Good (recordAndTrace o rec parent ty mn r st) := by
  unfold recordAndTrace
  have h1 : Good (addFile o r.path ty (some parent) (some mn) st) :=
    good_addFile _ _ _ _ _ _ hG (fun q hq => by cases hq; exact hpar)
      (fun _ => by simp)
  split
  · exact h1
  · exact hrec.2 _ _ h1 (mem_addFile_self _ _ _ _ _ _)

theorem good_handleName (fs : FS) (o : TraceOptions)
    (rec : FilePath → TraceState → TraceState) (hrec : RecOk rec)
    (parent : FilePath) (baseName : String) (r : ResolveResult)
    (st : TraceState) (name : String) (hG : Good st)
    (hpar : parent ∈ st.fileList) :
    Good (handleName fs o rec parent baseName r st name) := by
  unfold handleName
  split
  · exact hG
  · split
    · exact good_recordAndTrace o rec hrec parent _ _ _ st hG hpar
    · exact hG

theorem good_handleImport (fs : FS) (o : TraceOptions)
    (rec : FilePath → TraceState → TraceState) (hrec : RecOk rec)
    (parent : FilePath) (imp : ImportInfo) (st : TraceState) (hG : Good st)
    (hpar : parent ∈ st.fileList) :
    Good (handleImport fs o rec parent imp st) := by
  unfold handleImport
  split
  · exact good_recordAndTrace o rec hrec parent _ _ _ st hG hpar
  · split
    · exact hG
    · exact good_of_eq rfl rfl hG

theorem foldl_preserves {α : Type _} (P : TraceState → Prop)
    (f : TraceState → α → TraceState) (h : ∀ s a, P s → P (f s a)) :
    ∀ (l : List α) (s : TraceState), P s → P (l.foldl f s) := by
  intro l
  induction l with
  | nil => exact fun s hs => hs
  | cons a t ih => exact fun s hs => ih _ (h s a hs)

theorem foldl_preserves_mem {α : Type _} (P : TraceState → Prop)
    (f : TraceState → α → TraceState) :
    ∀ l : List α, (∀ s a, a ∈ l → P s → P (f s a)) →
      ∀ s : TraceState, P s → P (l.foldl f s) := by
  intro l
  induction l with
  | nil => exact fun _ s hs => hs
  | cons a t ih =>
    intro h s hs
    exact ih (fun s' a' ha' => h s' a' (List.mem_cons_of_mem _ ha')) _
      (h s a (List.mem_cons_self _ _) hs)

theorem good_handleFromImport (fs : FS) (o : TraceOptions)
    (rec : FilePath → TraceState → TraceState) (hrec : RecOk rec)
    (parent : FilePath) (imp : FromImportInfo) (st : TraceState)
    (hG : Good st) (hpar : parent ∈ st.fileList) :
    Good (handleFromImport fs o rec parent imp st) := by
  unfold handleFromImport
  split
  · split
    · refine (foldl_preserves (fun s => Good s ∧ parent ∈ s.fileList) _
        (fun s a hs => ⟨good_handleName fs o rec hrec parent _ _ s a hs.1 hs.2,
          (pres_handleName fs o rec hrec.1 parent _ _ s a).1 parent hs.2⟩) _ _
        ⟨good_recordAndTrace o rec hrec parent _ _ _ st hG hpar,
          (pres_recordAndTrace o rec hrec.1 parent _ _ _ st).1 parent hpar⟩).1
    · exact good_of_eq rfl rfl hG
  · split
    · split
      · refine (foldl_preserves (fun s => Good s ∧ parent ∈ s.fileList) _
          (fun s a hs => ⟨good_handleName fs o rec hrec parent _ _ s a hs.1 hs.2,
            (pres_handleName fs o rec hrec.1 parent _ _ s a).1 parent hs.2⟩) _ _
          ⟨good_recordAndTrace o rec hrec parent _ _ _ st hG hpar,
            (pres_recordAndTrace o rec hrec.1 parent _ _ _ st).1 parent hpar⟩).1
      · split
        · exact hG
        · exact good_of_eq rfl rfl hG
    · exact hG

theorem good_handleDynamic (fs : FS) (o : TraceOptions)
    (rec : FilePath → TraceState → TraceState) (hrec : RecOk rec)
    (parent : FilePath) (imp : DynamicImportInfo) (st : TraceState)
    (hG : Good st) (hpar : parent ∈ st.fileList) :
    Good (handleDynamic fs o rec parent imp st) := by
  unfold handleDynamic
  split
  · split
    · exact good_recordAndTrace o rec hrec parent _ _ _ st hG hpar
    · split
      · exact hG
      · exact good_of_eq rfl rfl hG
  · split
    · exact good_of_eq rfl rfl hG
    · exact hG

theorem good_traceBody (fs : FS) (o : TraceOptions)
    (rec : FilePath → TraceState → TraceState) (hrec : RecOk rec)
    (path : FilePath) (st : TraceState) (hG : Good st)
    (hp : path ∈ st.fileList) :
    Good (traceBody fs o rec path st) := by
  unfold traceBody
  split
  · exact good_of_eq rfl rfl hG
  · rename_i imps heq
    have h1 : Good (imps.imports.foldl
          (fun s i => handleImport fs o rec path i s) st) ∧
        path ∈ (imps.imports.foldl
          (fun s i => handleImport fs o rec path i s) st).fileList :=
      foldl_preserves (fun s => Good s ∧ path ∈ s.fileList) _
        (fun s a hs => ⟨good_handleImport fs o rec hrec path a s hs.1 hs.2,
          (pres_handleImport fs o rec hrec.1 path a s).1 path hs.2⟩)
        imps.imports st ⟨hG, hp⟩
    have h2 : Good (imps.fromImports.foldl
          (fun s i => handleFromImport fs o rec path i s)
          (imps.imports.foldl (fun s i => handleImport fs o rec path i s) st)) ∧
        path ∈ (imps.fromImports.foldl
          (fun s i => handleFromImport fs o rec path i s)
          (imps.imports.foldl (fun s i => handleImport fs o rec path i s) st)).fileList :=
      foldl_preserves (fun s => Good s ∧ path ∈ s.fileList) _
        (fun s a hs => ⟨good_handleFromImport fs o rec hrec path a s hs.1 hs.2,
          (pres_handleFromImport fs o rec hrec.1 path a s).1 path hs.2⟩)
        imps.fromImports _ h1
    have h3 : ∀ s : TraceState, Good s ∧ path ∈ s.fileList →
        Good (if o.analyzeDynamic then
          imps.dynamicImports.foldl (fun s i => handleDynamic fs o rec path i s) s
        else s) := by
      intro s hs
      split
      · exact (foldl_preserves (fun s => Good s ∧ path ∈ s.fileList) _
          (fun s a hs => ⟨good_handleDynamic fs o rec hrec path a s hs.1 hs.2,
            (pres_handleDynamic fs o rec hrec.1 path a s).1 path hs.2⟩)
          imps.dynamicImports s hs).1
      · exact hs.1
    exact good_of_eq rfl rfl (h3 _ h2)

theorem good_seedState (o : TraceOptions) (p : FilePath) (b : Bool)
    (st : TraceState) (hG : Good st) : Good (seedState o p b st) := by
  cases b
  · exact good_of_eq rfl rfl hG
  · exact good_addFile _ _ _ _ _ _ (good_of_eq rfl rfl hG)
      (fun q hq => nomatch hq) (fun h => absurd rfl h)

theorem mem_seedState (o : TraceOptions) (p : FilePath) (b : Bool)
    (st : TraceState) (hp : b = false → p ∈ st.fileList) :
    p ∈ (seedState o p b st).fileList := by
  cases b
  · exact hp rfl
  · exact mem_addFile_self _ _ _ _ _ _

theorem good_traceFileAux (fs : FS) (o : TraceOptions) :
    ∀ (fuel : Nat) (p : FilePath) (b : Bool) (st : TraceState),
      Good st → (b = false → p ∈ st.fileList) →
      Good (traceFileAux fs o fuel p b st) := by
  intro fuel
  induction fuel with
  | zero => intro p b st hG _; exact good_of_eq rfl rfl hG
  | succ n ih =>
    intro p b st hG hp
    unfold traceFileAux
    split
    · exact hG
    · split
      · exact hG
      · split
        · exact good_of_eq rfl rfl (good_seedState o p b st hG)
        · exact good_traceBody fs o _
            ⟨fun q s => pres_traceFileAux fs o n q false s,
              fun q s hGs hqs => ih q false s hGs (fun _ => hqs)⟩
            p _ (good_seedState o p b st hG) (mem_seedState o p b st hp)

/-! ### Seeding-phase invariants -/

/-- The reason keys are exactly the file list. -/
def KeysEq (st : TraceState) : Prop :=
  st.reasons.map Prod.fst = st.fileList

/-- Every recorded file has an `input` reason (holds during seeding). -/
def AllInput (st : TraceState) : Prop :=
  ∀ q ∈ st.fileList,
    ∃ r, st.reasons.lookup q = some r ∧ r.type = ReasonType.input

/-- Pending files are recorded (holds during seeding). -/
def PendingSub (st : TraceState) : Prop :=
  ∀ q ∈ st.pending, q ∈ st.fileList

/-- Invariant of the entry-seeding phase. -/
def SeedInv (st : TraceState) : Prop :=
  Good st ∧ KeysEq st ∧ AllInput st ∧ PendingSub st ∧ st.traced = []

theorem keysEq_addFile (o : TraceOptions) (path : FilePath) (ty : ReasonType)
    (par : Option FilePath) (mn : Option String) (st : TraceState)
    (hK : KeysEq st) : KeysEq (addFile o path ty par mn st) := by
  unfold addFile
  split
  · show (st.reasons.map _).map Prod.fst = st.fileList
    rw [List.map_map, ← hK]
    apply List.map_congr_left
    intro e _
    by_cases hk : e.1 = path
    · simp [Function.comp, hk]
    · simp [Function.comp, hk]
  · show (st.reasons ++ _).map Prod.fst = st.fileList ++ [path]
    rw [List.map_append, hK]
    rfl

theorem pending_addFile (o : TraceOptions) (path : FilePath)
    (ty : ReasonType) (par : Option FilePath) (mn : Option String)
    (st : TraceState) : (addFile o path ty par mn st).pending = st.pending := by
  unfold addFile
  split <;> rfl

theorem traced_addFile (o : TraceOptions) (path : FilePath)
    (ty : ReasonType) (par : Option FilePath) (mn : Option String)
    (st : TraceState) : (addFile o path ty par mn st).traced = st.traced := by
  unfold addFile
  split <;> rfl

theorem allInput_addFile_input (o : TraceOptions) (f : FilePath)
    (mn : Option String) (st : TraceState) (hK : KeysEq st)
    (hA : AllInput st) :
    AllInput (addFile o f ReasonType.input none mn st) := by
  intro q hq
  unfold addFile at hq ⊢
  by_cases hmem : f ∈ st.fileList
  · rw [if_pos hmem] at hq ⊢
    obtain ⟨r, hr, hty⟩ := hA q hq
    refine ⟨if q = f then bumpParents none r else r, ?_, ?_⟩
    · show (st.reasons.map fun e =>
        if e.1 = f then (e.1, bumpParents none e.2) else e).lookup q = _
      rw [lookup_map_update, hr]
      rfl
    · split <;> simpa [bumpParents] using hty
  · rw [if_neg hmem] at hq ⊢
    rcases List.mem_append.mp hq with h1 | h2
    · obtain ⟨r, hr, hty⟩ := hA q h1
      exact ⟨r, lookup_append_some hr, hty⟩
    · simp only [List.mem_singleton] at h2
      subst h2
      have hnone : st.reasons.lookup q = none := by
        apply lookup_none_of_not_mem_keys
        rw [hK]
        exact hmem
      refine ⟨⟨ReasonType.input, addParent [] none, mn, shouldIgnore o q⟩, ?_, rfl⟩
      rw [lookup_append_none hnone]
      simp

theorem seedInv_seedEntry (o : TraceOptions) (acc : TraceState × List FilePath)
    (f : FilePath) (h : SeedInv acc.1)
    (hc : ∀ c ∈ acc.2, c ∈ acc.1.fileList) :
    SeedInv (seedEntry o acc f).1 ∧
    (∀ c ∈ (seedEntry o acc f).2, c ∈ (seedEntry o acc f).1.fileList) ∧
    f ∈ (seedEntry o acc f).1.fileList ∧
    (∃ r, (seedEntry o acc f).1.reasons.lookup f = some r ∧
      r.type = ReasonType.input) := by
  obtain ⟨hG, hK, hA, hP, hT⟩ := h
  unfold seedEntry
  split
  · rename_i hpend
    exact ⟨⟨hG, hK, hA, hP, hT⟩, hc, hP f hpend, hA f (hP f hpend)⟩
  · split
    · rename_i htr
      rw [hT] at htr
      exact absurd htr (List.not_mem_nil f)
    · rename_i hpend _
      have hG1 : Good { acc.1 with pending := f :: acc.1.pending } :=
        good_of_eq rfl rfl hG
      have hGS : Good (seedState o f true acc.1) :=
        good_addFile _ _ _ _ _ _ hG1 (fun q hq => nomatch hq)
          (fun h => absurd rfl h)
      have hKS : KeysEq (seedState o f true acc.1) :=
        keysEq_addFile _ _ _ _ _ _ hK
      have hAS : AllInput (seedState o f true acc.1) :=
        allInput_addFile_input o f none _ hK hA
      have hfS : f ∈ (seedState o f true acc.1).fileList :=
        mem_addFile_self _ _ _ _ _ _
      have monoS : ∀ q ∈ acc.1.fileList, q ∈ (seedState o f true acc.1).fileList :=
        fun q hq => (pres_addFile o f ReasonType.input none none
          { acc.1 with pending := f :: acc.1.pending }).1 q hq
      have hpendS : (seedState o f true acc.1).pending = f :: acc.1.pending :=
        pending_addFile _ _ _ _ _ _
      have htrS : (seedState o f true acc.1).traced = [] := by
        rw [show (seedState o f true acc.1).traced = acc.1.traced from
          traced_addFile _ _ _ _ _ _, hT]
      split
      · refine ⟨⟨good_of_eq rfl rfl hGS, hKS, hAS, ?_, htrS⟩,
          fun c hcm => monoS c (hc c hcm), hfS, hAS f hfS⟩
        intro q hq
        show q ∈ (seedState o f true acc.1).fileList
        have hq' : q ∈ acc.1.pending := by
          rw [hpendS] at hq
          rwa [List.erase_cons_head] at hq
        exact monoS q (hP q hq')
      · refine ⟨⟨hGS, hKS, hAS, ?_, htrS⟩, ?_, hfS, hAS f hfS⟩
        · intro q hq
          rw [hpendS] at hq
          rcases List.mem_cons.mp hq with rfl | hq'
          · exact hfS
          · exact monoS q (hP q hq')
        · intro c hcm
          rcases List.mem_append.mp hcm with h1 | h2
          · exact monoS c (hc c h1)
          · simp only [List.mem_singleton] at h2
            subst h2
            exact hfS

theorem seedInv_fold (o : TraceOptions) :
    ∀ (files : List FilePath) (acc : TraceState × List FilePath),
      SeedInv acc.1 → (∀ c ∈ acc.2, c ∈ acc.1.fileList) →
      SeedInv (files.foldl (seedEntry o) acc).1 ∧
      (∀ c ∈ (files.foldl (seedEntry o) acc).2,
        c ∈ (files.foldl (seedEntry o) acc).1.fileList) ∧
      (∀ e ∈ files,
        e ∈ (files.foldl (seedEntry o) acc).1.fileList ∧
        ∃ r, (files.foldl (seedEntry o) acc).1.reasons.lookup e = some r ∧
          r.type = ReasonType.input) := by
  intro files
  induction files with
  | nil =>
    intro acc h hc
    exact ⟨h, hc, by simp⟩
  | cons f t ih =>
    intro acc h hc
    obtain ⟨h1, h2, h3, h4⟩ := seedInv_seedEntry o acc f h hc
    obtain ⟨ih1, ih2, ih3⟩ := ih (seedEntry o acc f) h1 h2
    refine ⟨ih1, ih2, ?_⟩
    intro e he
    rcases List.mem_cons.mp he with rfl | het
    · have hpres : Pres (seedEntry o acc e).1
          (t.foldl (seedEntry o) (seedEntry o acc e)).1 :=
        pres_seedFold o t (seedEntry o acc e)
      obtain ⟨r, hr, hty⟩ := h4
      obtain ⟨r', hr', hty'⟩ := hpres.2.1 e r hr
      exact ⟨hpres.1 e h3, r', hr', hty'.trans hty⟩
    · exact ih3 e het

/-- The seeding state is well formed from the empty initial state, and the
whole trace keeps the parent-closure invariant while recording every entry
with the `input` reason kind. -/
theorem good_pythonFileTrace (fs : FS) (o : TraceOptions)
    (files : List FilePath) (rm : List (String × Option FilePath)) :
    Good (pythonFileTrace fs o files rm) ∧
    (∀ e ∈ files,
      e ∈ (pythonFileTrace fs o files rm).fileList ∧
      ∃ r, (pythonFileTrace fs o files rm).reasons.lookup e = some r ∧
        r.type = ReasonType.input) := by
  have hinit : SeedInv (initialState rm) := by
    refine ⟨?_, rfl, ?_, ?_, rfl⟩
    · intro e he
      exact absurd he (List.not_mem_nil e)
    · intro q hq
      exact absurd hq (List.not_mem_nil q)
    · intro q hq
      exact absurd hq (List.not_mem_nil q)
  obtain ⟨hs, hcont, hentries⟩ := seedInv_fold o files (initialState rm, [])
    hinit (fun c hc => absurd hc (List.not_mem_nil c))
  have hrec : RecOk (fun p s => traceFileAux fs o o.maxDepth p false s) :=
    ⟨fun p s => pres_traceFileAux fs o o.maxDepth p false s,
     fun p s hGs hps => good_traceFileAux fs o o.maxDepth p false s hGs
       (fun _ => hps)⟩
  have h2 := foldl_preserves_mem
    (fun s => Good s ∧
      ∀ c ∈ (files.foldl (seedEntry o) (initialState rm, [])).2, c ∈ s.fileList)
    (fun st f =>
      traceBody fs o (fun p s => traceFileAux fs o o.maxDepth p false s) f st)
    (files.foldl (seedEntry o) (initialState rm, [])).2
    (fun s a ha hsP =>
      ⟨good_traceBody fs o _ hrec a s hsP.1 (hsP.2 a ha),
       fun c hcm => (pres_traceBody fs o _ hrec.1 a s).1 c (hsP.2 c hcm)⟩)
    (files.foldl (seedEntry o) (initialState rm, [])).1
    ⟨hs.1, fun c hcm => hcont c hcm⟩
  have hpres2 : Pres (files.foldl (seedEntry o) (initialState rm, [])).1
      (pythonFileTrace fs o files rm) :=
    pres_foldl _
      (fun s f => pres_traceBody fs o _
        (fun q s' => pres_traceFileAux fs o o.maxDepth q false s') f s) _ _
  constructor
  · exact h2.1
  · intro e he
    obtain ⟨hef, r, hr, hty⟩ := hentries e he
    obtain ⟨r', hr', hty'⟩ := hpres2.2.1 e r hr
    exact ⟨hpres2.1 e hef, r', hr', hty'.trans hty⟩

/-! ### The final-component preference order, against the spec's words -/

theorem isFile_iff_mem (fs : FS) (p : FilePath) :
    isFile fs p = true ↔ p ∈ fs.files := by
  simp [isFile, List.contains, List.elem_eq_mem]

theorem isDir_iff_mem (fs : FS) (p : FilePath) :
    isDir fs p = true ↔ p ∈ fs.dirs := by
  simp [isDir, List.contains, List.elem_eq_mem]

/-- A well-formed filesystem: the parent of every file, and of every
non-root directory, is a directory. -/
def WFfs (fs : FS) : Prop :=
  (∀ p ∈ fs.files, isDir fs p.dropLast = true) ∧
  (∀ p ∈ fs.dirs, p ≠ [] → isDir fs p.dropLast = true)

theorem isDir_of_isFile_child {fs : FS} (hwf : WFfs fs) {d : FilePath}
    {x : String} (h : isFile fs (d ++ [x]) = true) : isDir fs d = true := by
  have hm : d ++ [x] ∈ fs.files := (isFile_iff_mem fs _).mp h
  have hd := hwf.1 _ hm
  rwa [List.dropLast_concat] at hd

theorem isDir_of_hasMember {fs : FS} (hwf : WFfs fs) {d : FilePath}
    (h : hasMember fs d = true) : isDir fs d = true := by
  have h' : (∃ q, q ∈ fs.files ∧ q.dropLast = d ∧ lastIsPy q = true) ∨
      (∃ q, q ∈ fs.dirs ∧ q.dropLast = d) := by
    simpa [hasMember] using h
  rcases h' with ⟨q, hq, hqd, _⟩ | ⟨q, hq, hqd⟩
  · have hd := hwf.1 _ hq
    rwa [hqd] at hd
  · rcases List.eq_nil_or_concat q with rfl | ⟨l, x, rfl⟩
    · have hd : d = [] := by simpa using hqd.symm
      rw [hd]
      exact (isDir_iff_mem fs []).mpr hq
    · have hd := hwf.2 _ hq (by simp)
      rwa [hqd] at hd

/-- Following the spec's words (§4.3, final component of the walk): prefer
the `<name>.py` file, then the regular-package initializer, then the
directory as a namespace package when it contains at least one
target-language file or subdirectory. -/
def resolveFinalSpec (fs : FS) (cur : FilePath) (part : String) :
    Option ResolveResult :=
  if isFile fs (cur ++ [part ++ ".py"]) then
    some ⟨cur ++ [part ++ ".py"], false, false⟩
  else if isFile fs ((cur ++ [part]) ++ ["__init__.py"]) then
    some ⟨(cur ++ [part]) ++ ["__init__.py"], true, false⟩
  else if hasMember fs (cur ++ [part]) then
    some ⟨cur ++ [part], true, true⟩
  else
    none

theorem resolveInPath_single_eq_spec (fs : FS) (hwf : WFfs fs)
    (cur : FilePath) (part : String) :
    resolveInPath fs [part] cur = resolveFinalSpec fs cur part := by
  unfold resolveInPath resolveFinalSpec
  by_cases h1 : isFile fs (cur ++ [part ++ ".py"]) = true
  · simp [h1]
  · have h1' : isFile fs (cur ++ [part ++ ".py"]) = false :=
      Bool.not_eq_true _ ▸ Bool.of_not_eq_true h1
    by_cases h2 : isFile fs (cur ++ [part, "__init__.py"]) = true
    · have h2c : isFile fs ((cur ++ [part]) ++ ["__init__.py"]) = true := by
        rw [List.append_assoc]
        exact h2
      have hdir : isDir fs (cur ++ [part]) = true := isDir_of_isFile_child hwf h2c
      simp [h1', hdir, h2]
    · have h2' : isFile fs (cur ++ [part, "__init__.py"]) = false :=
        Bool.not_eq_true _ ▸ Bool.of_not_eq_true h2
      by_cases h3 : hasMember fs (cur ++ [part]) = true
      · have hdir : isDir fs (cur ++ [part]) = true := isDir_of_hasMember hwf h3
        simp [h1', hdir, h2', h3, isNamespacePackage]
      · have h3' : hasMember fs (cur ++ [part]) = false :=
          Bool.not_eq_true _ ▸ Bool.of_not_eq_true h3
        by_cases h4 : isDir fs (cur ++ [part]) = true
        · simp [h1', h4, h2', h3', isNamespacePackage]
        · have h4' : isDir fs (cur ++ [part]) = false :=
            Bool.not_eq_true _ ▸ Bool.of_not_eq_true h4
          simp [h1', h4', h2', h3']

theorem resolveInPaths_first_success (fs : FS) (parts : List String) :
    ∀ (l1 : List FilePath) (r : FilePath) (l2 : List FilePath)
      (v : ResolveResult),
      (∀ x ∈ l1, resolveInPath fs parts x = none) →
      resolveInPath fs parts r = some v →
      resolveInPaths fs parts (l1 ++ r :: l2) = some v := by
  intro l1
  induction l1 with
  | nil =>
    intro r l2 v _ hr
    simp [resolveInPaths, hr]
  | cons x t ih =>
    intro r l2 v hnone hr
    have hx : resolveInPath fs parts x = none :=
      hnone x (List.mem_cons_self _ _)
    simp only [List.cons_append, resolveInPaths, hx]
    exact ih r l2 v (fun y hy => hnone y (List.mem_cons_of_mem _ hy)) hr

theorem resolveInPaths_all_none (fs : FS) (parts : List String) :
    ∀ roots : List FilePath,
      (∀ x ∈ roots, resolveInPath fs parts x = none) →
      resolveInPaths fs parts roots = none := by
  intro roots
  induction roots with
  | nil => intro _; rfl
  | cons x t ih =>
    intro hnone
    have hx : resolveInPath fs parts x = none :=
      hnone x (List.mem_cons_self _ _)
    simp only [resolveInPaths, hx]
    exact ih (fun y hy => hnone y (List.mem_cons_of_mem _ hy))

/-! ### Additional fixture option records for the claim theorems -/

/-- Options with a probed stdlib set `{os}` and stdlib inclusion off. -/
def oStd : TraceOptions := { oSimple with stdlibModules := ["os"] }

/-- Options with a probed stdlib set `{os}` and stdlib inclusion on. -/
def oStdInc : TraceOptions :=
  { oSimple with stdlibModules := ["os"], includeStdlib := true }

/-- Options with deliberately different absolute-search roots, to exhibit
that relative resolution is unaffected by them. -/
def oAlt : TraceOptions :=
  { oSimple with
      base := ["other"]
      modulePaths := [["zzz"]]
      sitePackages := [["www"]] }

/-! ### Claim theorems -/

/-- C1 (counterexample): a file matched by the ignore patterns is *not*
excluded from the result file set — tracing Scenario 1 with
`ignore = ["**/helpers.py"]` still records `helpers.py`. -/
theorem c1_counterexample :
    ["b", "helpers.py"] ∈
      (pythonFileTrace fsSimple oIgnore [["b", "main.py"]] []).fileList ∧
    shouldIgnore oIgnore ["b", "helpers.py"] = true :=
  ⟨by decide, by decide⟩

/-- C1 (amended): a file matched by the ignore patterns that is reached by
an import stays in the result file set, carrying `ignored = true`, and its
own imports are not traversed (in Scenario 1 with `ignore =
["**/helpers.py"]`, `helpers.py` is recorded but `hidden.py`, imported
only by `helpers.py`, is not reached and `helpers.py` is never traced);
in general an ignored, not-yet-seen file is skipped by the traversal
without any state change. -/
theorem c1_ignored_retained_not_traversed :
    ((pythonFileTrace fsSimple oIgnore [["b", "main.py"]] []).fileList =
        [["b", "main.py"], ["b", "utils.py"], ["b", "helpers.py"]] ∧
      ((pythonFileTrace fsSimple oIgnore [["b", "main.py"]] []).reasons.lookup
        ["b", "helpers.py"]).map (fun r => r.ignored) = some true ∧
      ["b", "hidden.py"] ∉
        (pythonFileTrace fsSimple oIgnore [["b", "main.py"]] []).fileList ∧
      (pythonFileTrace fsSimple oIgnore [["b", "main.py"]] []).traced =
        [["b", "utils.py"], ["b", "main.py"]]) ∧
    (∀ (fs : FS) (o : TraceOptions) (fuel : Nat) (p : FilePath)
      (st : TraceState),
      shouldIgnore o p = true → p ∉ st.pending → p ∉ st.traced →
      traceFileAux fs o (fuel + 1) p false st = st) := by
  constructor
  · exact ⟨by decide, by decide, by decide, by decide⟩
  · intro fs o fuel p st hig hp ht
    unfold traceFileAux
    rw [if_neg hp, if_neg ht, if_pos hig]
    show { st with pending := (p :: st.pending).erase p } = st
    have he : (p :: st.pending).erase p = st.pending := by simp
    rw [he]

/-- Witness for the C1 amended theorem at a concrete ignored file. -/
theorem c1_ignored_retained_not_traversed_witness :
    traceFileAux fsSimple oIgnore 5 ["b", "helpers.py"] false (initialState []) =
      initialState [] :=
  c1_ignored_retained_not_traversed.2 fsSimple oIgnore 4 ["b", "helpers.py"]
    (initialState []) (by decide) (by decide) (by decide)

/-- C2 (counterexample): a namespace-package resolution is recorded with
the import variant's reason kind (`import` here), not with the
`namespace_marker` kind. -/
theorem c2_counterexample :
    (resNs.reasons.lookup ["b", "nspkg"]).map (fun r => r.type) =
      some ReasonType.importKind ∧
    ReasonType.importKind ≠ ReasonType.namespaceKind :=
  ⟨by decide, by decide⟩

/-- C2 (amended): for every import whose resolution is a namespace
package, the orchestrator records the resolved directory with the import
variant's reason kind (`import`, `dynamic`, `relative`, `from` — not
`namespace_marker`) and does not enqueue the directory: the handler's
result is exactly the `addFile` record (shown for plain and dynamic
imports, and for from-imports with no listed names), and concretely the
directory is never traced and its children are never reached. -/
theorem c2_namespace_recorded_with_variant_kind_not_enqueued :
    (∀ (fs : FS) (o : TraceOptions) rec (parent : FilePath)
      (imp : ImportInfo) (st : TraceState) (r : ResolveResult),
      resolveModule fs o imp.module (some parent) = some r →
      r.isNamespacePackage = true →
      handleImport fs o rec parent imp st =
        addFile o r.path ReasonType.importKind (some parent)
          (some imp.module) st) ∧
    (∀ (fs : FS) (o : TraceOptions) rec (parent : FilePath) (m : String)
      (expr : Option String) (line : Nat) (st : TraceState)
      (r : ResolveResult),
      resolveModule fs o m (some parent) = some r →
      r.isNamespacePackage = true →
      handleDynamic fs o rec parent ⟨some m, expr, line⟩ st =
        addFile o r.path ReasonType.dynamicKind (some parent) (some m) st) ∧
    (∀ (fs : FS) (o : TraceOptions) rec (parent : FilePath) (m : String)
      (level line : Nat) (st : TraceState) (r : ResolveResult),
      level > 0 →
      resolveRelativeImport fs o m level parent = some r →
      r.isNamespacePackage = true →
      handleFromImport fs o rec parent ⟨m, [], level, line⟩ st =
        addFile o r.path ReasonType.relativeKind (some parent)
          (some (if m = "" then "." else m)) st) ∧
    (∀ (fs : FS) (o : TraceOptions) rec (parent : FilePath) (m : String)
      (line : Nat) (st : TraceState) (r : ResolveResult),
      m ≠ "" →
      resolveModule fs o m (some parent) = some r →
      r.isNamespacePackage = true →
      handleFromImport fs o rec parent ⟨m, [], 0, line⟩ st =
        addFile o r.path ReasonType.fromKind (some parent) (some m) st) ∧
    (resNs.fileList = [["b", "main2.py"], ["b", "nspkg"]] ∧
      resNs.traced = [["b", "main2.py"]] ∧ resNs.pending = [] ∧
      ["b", "nspkg", "child.py"] ∉ resNs.fileList) := by
  refine ⟨?_, ?_, ?_, ?_, by decide, by decide, by decide, by decide⟩
  · intro fs o rec parent imp st r h1 h2
    simp [handleImport, recordAndTrace, h1, h2]
  · intro fs o rec parent m expr line st r h1 h2
    simp [handleDynamic, recordAndTrace, h1, h2]
  · intro fs o rec parent m level line st r hl h1 h2
    simp [handleFromImport, recordAndTrace, hl, h1, h2]
  · intro fs o rec parent m line st r hm h1 h2
    simp [handleFromImport, recordAndTrace, hm, h1, h2]

/-- Witness for the C2 amended theorem at a concrete namespace package. -/
theorem c2_namespace_recorded_witness :
    handleImport fsNs oSimple (fun _ s => s) ["b", "main2.py"] ⟨"nspkg", 1⟩
        (initialState []) =
      addFile oSimple ["b", "nspkg"] ReasonType.importKind
        (some ["b", "main2.py"]) (some "nspkg") (initialState []) :=
  c2_namespace_recorded_with_variant_kind_not_enqueued.1 fsNs oSimple
    (fun _ s => s) ["b", "main2.py"] ⟨"nspkg", 1⟩ (initialState [])
    ⟨["b", "nspkg"], true, true⟩ (by decide) (by decide)

/-- C3 (code bug): the resolver performs no memoization — the
`resolvedModules` map of the cache is never read or written by any part of
a trace (it comes out exactly as it went in, and stays empty after a trace
that did resolve modules). -/
theorem c3_resolver_cache_never_written :
    (∀ (fs : FS) (o : TraceOptions) (files : List FilePath)
      (rm : List (String × Option FilePath)),
      (pythonFileTrace fs o files rm).resolvedModules = rm) ∧
    ["b", "utils.py"] ∈
      (pythonFileTrace fsSimple oSimple [["b", "main.py"]] []).fileList ∧
    (pythonFileTrace fsSimple oSimple [["b", "main.py"]] []).resolvedModules =
      [] := by
  refine ⟨?_, by decide, by decide⟩
  intro fs o files rm
  exact (pres_pythonFileTrace fs o files rm).2.2

/-- C4 (counterexample): an empty relative module name from a file inside
a directory that satisfies the namespace-package rule still resolves to
`Unresolved` — the namespace form is not returned. -/
theorem c4_counterexample :
    resolveRelativeImport fsRel oSimple "" 1 ["r", "pkg", "a.py"] = none ∧
    isNamespacePackage fsRel ["r", "pkg"] = true :=
  ⟨by decide, by decide⟩

/-- C4 (amended): for every relative import with an empty module name, the
resolver returns the derived directory's initializer file when one exists
and `Unresolved` otherwise; the namespace-package form is never produced
for an empty module name. -/
theorem c4_empty_relative_name_init_or_unresolved :
    ∀ (fs : FS) (o : TraceOptions) (level : Nat) (fromFile : FilePath),
      (isFile fs (climbUp (level - 1) fromFile.dropLast ++ ["__init__.py"]) = true →
        resolveRelativeImport fs o "" level fromFile =
          some ⟨climbUp (level - 1) fromFile.dropLast ++ ["__init__.py"],
            true, false⟩) ∧
      (isFile fs (climbUp (level - 1) fromFile.dropLast ++ ["__init__.py"]) = false →
        resolveRelativeImport fs o "" level fromFile = none) := by
  intro fs o level fromFile
  constructor <;> intro h <;> simp [resolveRelativeImport, h]

/-- Witness for the C4 amended theorem at a concrete empty-name import. -/
theorem c4_empty_relative_name_witness :
    resolveRelativeImport fsRel oSimple "" 1 ["r", "pkg", "m.py"] = none :=
  (c4_empty_relative_name_init_or_unresolved fsRel oSimple 1
    ["r", "pkg", "m.py"]).2 (by decide)

/-- C5: with stdlib inclusion disabled, an absolute import whose top-level
component is in the probed stdlib set short-circuits to `Unresolved` on
any filesystem (no root is searched), and each orchestrator handler leaves
the state untouched — in particular nothing is added to the unresolved map
and no warning is pushed. -/
theorem c5_stdlib_short_circuit_and_suppression :
    ∀ (fs : FS) (o : TraceOptions) (m : String),
      o.includeStdlib = false → isStdlibModule o m = true →
      (∀ fromFile, resolveModule fs o m fromFile = none) ∧
      (∀ rec (parent : FilePath) (line : Nat) (st : TraceState),
        handleImport fs o rec parent ⟨m, line⟩ st = st) ∧
      (∀ rec (parent : FilePath) (names : List String) (line : Nat)
        (st : TraceState),
        handleFromImport fs o rec parent ⟨m, names, 0, line⟩ st = st) ∧
      (∀ rec (parent : FilePath) (expr : Option String) (line : Nat)
        (st : TraceState),
        handleDynamic fs o rec parent ⟨some m, expr, line⟩ st = st) := by
  intro fs o m h1 h2
  have hres : ∀ fromFile, resolveModule fs o m fromFile = none := by
    intro fromFile
    simp [resolveModule, h1, h2]
  refine ⟨hres, ?_, ?_, ?_⟩
  · intro rec parent line st
    simp [handleImport, hres, h2]
  · intro rec parent names line st
    by_cases hm : m = "" <;> simp [handleFromImport, hres, h2, hm]
  · intro rec parent expr line st
    simp [handleDynamic, hres, h2]

/-- Witness for C5 at a concrete stdlib-named module. -/
theorem c5_stdlib_suppression_witness :
    resolveModule fsSimple oStd "os.path" (some ["b", "main.py"]) = none ∧
    handleImport fsSimple oStd (fun _ s => s) ["b", "main.py"] ⟨"os.path", 3⟩
      (initialState []) = initialState [] := by
  have h := c5_stdlib_short_circuit_and_suppression fsSimple oStd "os.path"
    (by decide) (by decide)
  exact ⟨h.1 (some ["b", "main.py"]),
    h.2.1 (fun _ s => s) ["b", "main.py"] 3 (initialState [])⟩

/-- C6: on a well-formed filesystem, the per-root walk resolves the final
dotted component exactly in the spec's preference order — the `<name>.py`
file first, then the `<name>/__init__.py` regular package, then the
directory as a namespace package only when it has at least one Python file
or subdirectory member — and across roots the first root that succeeds
wins, with `Unresolved` only when every root fails. -/
theorem c6_final_component_preference_and_first_root_wins :
    (∀ fs : FS, WFfs fs → ∀ (cur : FilePath) (part : String),
      resolveInPath fs [part] cur = resolveFinalSpec fs cur part) ∧
    (∀ (fs : FS) (parts : List String) (l1 : List FilePath) (r : FilePath)
      (l2 : List FilePath) (v : ResolveResult),
      (∀ x ∈ l1, resolveInPath fs parts x = none) →
      resolveInPath fs parts r = some v →
      resolveInPaths fs parts (l1 ++ r :: l2) = some v) ∧
    (∀ (fs : FS) (parts : List String) (roots : List FilePath),
      (∀ x ∈ roots, resolveInPath fs parts x = none) →
      resolveInPaths fs parts roots = none) :=
  ⟨resolveInPath_single_eq_spec, resolveInPaths_first_success,
    resolveInPaths_all_none⟩

/-- Witness for C6 on the Scenario 1 filesystem. -/
theorem c6_resolution_order_witness :
    resolveInPath fsSimple ["utils"] ["b"] = resolveFinalSpec fsSimple ["b"] "utils" ∧
    resolveInPaths fsSimple ["utils"] ([["zzz"]] ++ ["b"] :: [["www"]]) =
      some ⟨["b", "utils.py"], false, false⟩ ∧
    resolveInPaths fsSimple ["nosuch"] [["b"], ["zzz"]] = none := by
  refine ⟨c6_final_component_preference_and_first_root_wins.1 fsSimple
    ⟨by decide, by decide⟩ ["b"] "utils", ?_, ?_⟩
  · exact c6_final_component_preference_and_first_root_wins.2.1 fsSimple
      ["utils"] [["zzz"]] ["b"] [["www"]] ⟨["b", "utils.py"], false, false⟩
      (by decide) (by decide)
  · exact c6_final_component_preference_and_first_root_wins.2.2 fsSimple
      ["nosuch"] [["b"], ["zzz"]] (by decide)

/-- C7: relative resolution is independent of every absolute-search-path
option (base, extra roots, site roots, stdlib root) — the same filesystem
and arguments give the same answer for any two option records — and for a
non-empty module name it equals the per-root walk whose sole root is the
importing file's directory climbed `level - 1` times. -/
theorem c7_relative_import_sole_root :
    ∀ (fs : FS) (o1 o2 : TraceOptions) (m : String) (level : Nat)
      (fromFile : FilePath),
      resolveRelativeImport fs o1 m level fromFile =
        resolveRelativeImport fs o2 m level fromFile ∧
      (m ≠ "" →
        resolveRelativeImport fs o1 m level fromFile =
          resolveInPath fs (splitDots m)
            (climbUp (level - 1) fromFile.dropLast)) := by
  intro fs o1 o2 m level fromFile
  refine ⟨rfl, fun hm => ?_⟩
  simp [resolveRelativeImport, hm]

/-- Witness for C7 at a concrete relative import under two different
option records. -/
theorem c7_relative_sole_root_witness :
    resolveRelativeImport fsRel oSimple "m" 1 ["r", "pkg", "a.py"] =
      resolveRelativeImport fsRel oAlt "m" 1 ["r", "pkg", "a.py"] ∧
    resolveRelativeImport fsRel oSimple "m" 1 ["r", "pkg", "a.py"] =
      resolveInPath fsRel (splitDots "m")
        (climbUp 0 (["r", "pkg", "a.py"] : FilePath).dropLast) := by
  have h := c7_relative_import_sole_root fsRel oSimple oAlt "m" 1
    ["r", "pkg", "a.py"]
  exact ⟨h.1, h.2 (by decide)⟩

/-- C8 (counterexample): an entry file caught in an import cycle does not
keep an empty parent set — in the `a ↔ b` cycle the entry `a.py` ends with
parents `{b.py}`. -/
theorem c8_counterexample :
    resCycle.reasons.lookup ["c", "a.py"] =
      some ⟨ReasonType.input, [["c", "b.py"]], none, false⟩ ∧
    ([["c", "b.py"]] : List FilePath) ≠ [] :=
  ⟨by decide, by decide⟩

/-- C8 (amended): for every completed trace, every entry file is in the
result file set with reason kind `entry` (its parent set may be non-empty
when another file imports it); every recorded reason's parent set is a
subset of the result file set; and every file whose reason kind is not
`entry` has a non-empty parent set. -/
theorem c8_entry_kind_and_parent_closure :
    ∀ (fs : FS) (o : TraceOptions) (files : List FilePath)
      (rm : List (String × Option FilePath)),
      (∀ e ∈ files,
        e ∈ (pythonFileTrace fs o files rm).fileList ∧
        ∃ r, (pythonFileTrace fs o files rm).reasons.lookup e = some r ∧
          r.type = ReasonType.input) ∧
      (∀ (p : FilePath) (r : FileReason),
        (pythonFileTrace fs o files rm).reasons.lookup p = some r →
        (∀ q ∈ r.parents, q ∈ (pythonFileTrace fs o files rm).fileList) ∧
        (r.type ≠ ReasonType.input → r.parents ≠ [])) := by
  intro fs o files rm
  obtain ⟨hGood, hentries⟩ := good_pythonFileTrace fs o files rm
  exact ⟨hentries, fun p r hr => hGood (p, r) (lookup_mem hr)⟩

/-- Witness for the C8 amended theorem on the cycle fixture. -/
theorem c8_entry_kind_and_parent_closure_witness :
    ["c", "a.py"] ∈ resCycle.fileList ∧
    (∃ r, resCycle.reasons.lookup ["c", "a.py"] = some r ∧
      r.type = ReasonType.input) ∧
    (∀ q ∈ ([["c", "a.py"]] : List FilePath), q ∈ resCycle.fileList) := by
  have h := c8_entry_kind_and_parent_closure fsCycle oCycle [["c", "a.py"]] []
  have h1 := h.1 ["c", "a.py"] (by decide)
  have h2 := h.2 ["c", "b.py"]
    ⟨ReasonType.importKind, [["c", "a.py"]], some "b", false⟩ (by decide)
  exact ⟨h1.1, h1.2, h2.1⟩

/-- C9: the mutual-import cycle `a ↔ b` entered at `a` terminates with the
file set `{a, b}` and mutual parents, and in general re-entering a file
that is currently pending is a no-op of the traversal: only the caller's
`addFile` accumulates the parent, and no re-descent happens. -/
theorem c9_cycle_terminates_with_mutual_parents :
    (resCycle.fileList = [["c", "a.py"], ["c", "b.py"]] ∧
      (resCycle.reasons.lookup ["c", "a.py"]).map (fun r => r.parents) =
        some [["c", "b.py"]] ∧
      (resCycle.reasons.lookup ["c", "b.py"]).map (fun r => r.parents) =
        some [["c", "a.py"]]) ∧
    (∀ (fs : FS) (o : TraceOptions) (fuel : Nat) (p : FilePath) (b : Bool)
      (st : TraceState), p ∈ st.pending →
      traceFileAux fs o (fuel + 1) p b st = st) := by
  constructor
  · exact ⟨by decide, by decide, by decide⟩
  · intro fs o fuel p b st hp
    unfold traceFileAux
    rw [if_pos hp]

/-- Witness for the C9 no-re-descent conjunct at a concrete pending
file. -/
theorem c9_cycle_witness :
    traceFileAux fsCycle oCycle 4 ["c", "a.py"] false
      { initialState [] with pending := [["c", "a.py"]] } =
      { initialState [] with pending := [["c", "a.py"]] } :=
  c9_cycle_terminates_with_mutual_parents.2 fsCycle oCycle 3 ["c", "a.py"]
    false { initialState [] with pending := [["c", "a.py"]] } (by decide)

/-- C10: the unresolved-map suppression consults only stdlib membership,
not the `include_stdlib` option — for any option record, a stdlib-named
module that fails to resolve leaves the state untouched in every handler,
so it never enters the unresolved map even with `include_stdlib = true`. -/
theorem c10_stdlib_suppression_ignores_include_option :
    ∀ (fs : FS) (o : TraceOptions) (m : String) rec (parent : FilePath)
      (st : TraceState),
      isStdlibModule o m = true →
      resolveModule fs o m (some parent) = none →
      (∀ line, handleImport fs o rec parent ⟨m, line⟩ st = st) ∧
      (∀ (names : List String) (line : Nat),
        handleFromImport fs o rec parent ⟨m, names, 0, line⟩ st = st) ∧
      (∀ (expr : Option String) (line : Nat),
        handleDynamic fs o rec parent ⟨some m, expr, line⟩ st = st) := by
  intro fs o m rec parent st h1 h2
  refine ⟨?_, ?_, ?_⟩
  · intro line
    simp [handleImport, h1, h2]
  · intro names line
    by_cases hm : m = "" <;> simp [handleFromImport, h1, h2, hm]
  · intro expr line
    simp [handleDynamic, h1, h2]

/-- Witness for C10 with `include_stdlib = true` and an unresolvable
stdlib-named module. -/
theorem c10_stdlib_suppression_witness :
    handleImport fsSimple oStdInc (fun _ s => s) ["b", "main.py"] ⟨"os", 1⟩
      (initialState []) = initialState [] := by
  have h := c10_stdlib_suppression_ignores_include_option fsSimple oStdInc
    "os" (fun _ s => s) ["b", "main.py"] (initialState []) (by decide)
    (by decide)
  exact h.1 1

end PyTrace
